import Mathlib

/-!
Shallow embedding of the NamazTracker prayer statistics & achievement engine.

Sources embedded here:
* `server/routes.ts` — `updateUserStatistics`, `groupRecordsByWeek`, the
  single-prayer POST route and the batch POST route;
* the storage layer (`MemStorage`) — prayer-record upserts and the idempotent
  `createAchievement`;
* the analytics library — `getDateRangeForPeriod`, `getPeriodSummary`,
  `checkStreakAchievements`, `checkPrayerMilestones`,
  `checkConsecutivePrayerCompletion` and the early-bird / night-owl /
  golden-hour checkers.

Modelling conventions: calendar dates are day numbers (days since 2000-01-01);
the lexicographic order of ISO `YYYY-MM-DD` strings coincides with the numeric
order of day numbers, and JavaScript `Date` arithmetic on such strings is UTC
civil-calendar arithmetic, embedded by `dayOfDate` / `weekStartDay`.
JavaScript's `Array.sort` with a comparator is embedded as a sort by the
comparator's order (`List.insertionSort`).  `Math.round` of the exact ratio
`100 * completed / total` is embedded as round-half-up on rationals,
`(200 * completed + total) / (2 * total)` in natural division.  Timestamps,
record ids and achievement titles carry no logic and are dropped or simplified;
`randomUUID` is determinized to a fresh-id counter.
-/

namespace Namaz

/-- Status of one prayer slot (`{completed, onTime}`; `completedAt` carries no logic). -/
structure PrayerStatus where
  completed : Bool
  onTime : Bool
deriving DecidableEq, Repr

/-- The fixed mapping of the five named slots, as in the `prayers` jsonb type. -/
structure DailyPrayers where
  fajr : PrayerStatus
  dhuhr : PrayerStatus
  asr : PrayerStatus
  maghrib : PrayerStatus
  isha : PrayerStatus
deriving DecidableEq, Repr

/-- Embeds `Object.values(record.prayers)` — the five statuses in declaration order. -/
def DailyPrayers.values (p : DailyPrayers) : List PrayerStatus :=
  [p.fajr, p.dhuhr, p.asr, p.maghrib, p.isha]

/-- Number of completed slots of a day. -/
def completedCount (p : DailyPrayers) : Nat :=
  p.values.countP (·.completed)

/-- Number of completed-and-on-time slots of a day. -/
def onTimeCount (p : DailyPrayers) : Nat :=
  p.values.countP (fun pr => pr.completed && pr.onTime)

/-- Number of not-completed slots of a day. -/
def missedCount (p : DailyPrayers) : Nat :=
  p.values.countP (fun pr => !pr.completed)

/-- All five slots completed (`dayPrayers.every(prayer => prayer.completed)`). -/
def allCompleted (p : DailyPrayers) : Bool :=
  p.values.all (·.completed)

/-- One of the five named slots. -/
inductive Slot where
  | fajr | dhuhr | asr | maghrib | isha
deriving DecidableEq, Repr

/-- Embeds `record.prayers[slot]`. -/
def DailyPrayers.get (p : DailyPrayers) : Slot → PrayerStatus
  | .fajr => p.fajr
  | .dhuhr => p.dhuhr
  | .asr => p.asr
  | .maghrib => p.maghrib
  | .isha => p.isha

/-- A per-day prayer record.  `date` is a day number; `prayers` is optional to
mirror the defensive `if (record.prayers)` null checks of the source. -/
structure PrayerRecord where
  date : Nat
  prayers : Option DailyPrayers
deriving DecidableEq, Repr

/-! ### Calendar arithmetic (UTC civil calendar, epoch 2000-01-01 = day 0) -/

/-- Gregorian leap-year test. -/
def isLeap (y : Nat) : Bool :=
  (y % 4 == 0 && y % 100 != 0) || y % 400 == 0

/-- Month lengths of a year. -/
def monthDays (leap : Bool) : List Nat :=
  [31, if leap then 29 else 28, 31, 30, 31, 30, 31, 31, 30, 31, 30, 31]

/-- Days of the year strictly before month `m` (1-based). -/
def daysBeforeMonth (leap : Bool) (m : Nat) : Nat :=
  ((monthDays leap).take (m - 1)).sum

/-- Number of Gregorian leap years in `[1, y]`. -/
def leapYearsUpTo (y : Nat) : Nat :=
  y / 4 - y / 100 + y / 400

/-- Day number of the civil date `y-m-d` (for `y ≥ 2000`): days since 2000-01-01. -/
def dayOfDate (y m d : Nat) : Nat :=
  365 * (y - 2000) + (leapYearsUpTo (y - 1) - leapYearsUpTo 1999)
    + daysBeforeMonth (isLeap y) m + (d - 1)

/-- JavaScript `Date.getDay()`: 0 = Sunday … 6 = Saturday (2000-01-01 was a Saturday). -/
def jsDayOfWeek (day : Nat) : Nat :=
  (day + 6) % 7

/-- The Monday on/before a day:
`date.getDate() - (date.getDay() === 0 ? 6 : date.getDay() - 1)`. -/
def weekStartDay (day : Nat) : Nat :=
  day - (if jsDayOfWeek day = 0 then 6 else jsDayOfWeek day - 1)

/-! ### Sorting comparators (`allRecords.sort(...)`) -/

/-- Descending-by-date comparator order (`(a, b) => b.date.localeCompare(a.date)`). -/
def dateDesc (a b : PrayerRecord) : Prop := b.date ≤ a.date

/-- Ascending-by-date comparator order (`(a, b) => a.date.localeCompare(b.date)`). -/
def dateAsc (a b : PrayerRecord) : Prop := a.date ≤ b.date

instance : DecidableRel dateDesc := fun a b => Nat.decLe b.date a.date

instance : DecidableRel dateAsc := fun a b => Nat.decLe a.date b.date

instance : IsTotal PrayerRecord dateDesc :=
  ⟨fun a b => (Nat.le_total b.date a.date).symm.symm⟩

instance : IsTrans PrayerRecord dateDesc :=
  ⟨fun _ _ _ h₁ h₂ => Nat.le_trans h₂ h₁⟩

instance : IsTotal PrayerRecord dateAsc :=
  ⟨fun a b => Nat.le_total a.date b.date⟩

instance : IsTrans PrayerRecord dateAsc :=
  ⟨fun _ _ _ h₁ h₂ => Nat.le_trans h₁ h₂⟩

/-- Embeds `allRecords.sort((a, b) => b.date.localeCompare(a.date))`. -/
def sortDesc (rs : List PrayerRecord) : List PrayerRecord :=
  rs.insertionSort dateDesc

/-- Embeds `allRecords.sort((a, b) => a.date.localeCompare(b.date))`. -/
def sortAsc (rs : List PrayerRecord) : List PrayerRecord :=
  rs.insertionSort dateAsc

/-! ### Current-streak walk (`updateUserStatistics`, routes.ts lines 34-59) -/

/-- Mutable state of the current-streak loop. -/
structure StreakState where
  streakBroken : Bool
  previousDate : Option Nat
  currentStreak : Nat
deriving DecidableEq, Repr

/-- The date-gap check of the current-streak loop: the flag after
`if (daysDiff > 1) streakBroken = true` (no check on the first counted day). -/
def streakBrokenAfterGap (s : StreakState) (r : PrayerRecord) : Bool :=
  s.streakBroken ||
    (match s.previousDate with
     | some prev => decide (1 < (prev : Int) - (r.date : Int))
     | none => false)

/-- One iteration of the current-streak loop over a (descending-sorted) record. -/
def streakStep (s : StreakState) (r : PrayerRecord) : StreakState :=
  match r.prayers with
  | none => s
  | some p =>
    if !(streakBrokenAfterGap s r) && allCompleted p then
      { streakBroken := streakBrokenAfterGap s r, previousDate := some r.date,
        currentStreak := s.currentStreak + 1 }
    else if !allCompleted p then
      { streakBroken := true, previousDate := s.previousDate,
        currentStreak := s.currentStreak }
    else
      { streakBroken := streakBrokenAfterGap s r,
        previousDate := s.previousDate,
        currentStreak := s.currentStreak }

/-- The current streak computed by the walk over the descending-sorted records. -/
def currentStreakOf (rs : List PrayerRecord) : Nat :=
  ((sortDesc rs).foldl streakStep ⟨false, none, 0⟩).currentStreak

/-! ### Lifetime totals and best streak (routes.ts lines 61-90) -/

/-- Mutable state of the chronological totals/best-streak loop. -/
structure TotState where
  totalPrayers : Nat
  onTimePrayers : Nat
  qazaPrayers : Nat
  tempStreak : Nat
  bestStreak : Nat
deriving DecidableEq, Repr

/-- One iteration of the chronological loop: per-slot counters, then the
temp-streak / best-streak update. -/
def totStep (s : TotState) (r : PrayerRecord) : TotState :=
  match r.prayers with
  | none => s
  | some p =>
    { totalPrayers := s.totalPrayers + completedCount p
      onTimePrayers := s.onTimePrayers + onTimeCount p
      qazaPrayers := s.qazaPrayers + missedCount p
      tempStreak := if allCompleted p then s.tempStreak + 1 else 0
      bestStreak := if allCompleted p then max s.bestStreak (s.tempStreak + 1)
                    else s.bestStreak }

/-! ### Perfect weeks (`groupRecordsByWeek`, routes.ts lines 131-159) -/

/-- The week key of a record: the Monday on/before its date. -/
def weekKeyOf (r : PrayerRecord) : Nat :=
  weekStartDay r.date

/-- Observed slots a record contributes to its week (5 when prayers present). -/
def slotsObserved (r : PrayerRecord) : Nat :=
  match r.prayers with
  | some _ => 5
  | none => 0

/-- Completed slots a record contributes to its week. -/
def slotsCompleted (r : PrayerRecord) : Nat :=
  match r.prayers with
  | some p => completedCount p
  | none => 0

/-- Completed-and-on-time slots a record contributes. -/
def slotsOnTime (r : PrayerRecord) : Nat :=
  match r.prayers with
  | some p => onTimeCount p
  | none => 0

/-- Missed slots a record contributes. -/
def slotsMissed (r : PrayerRecord) : Nat :=
  match r.prayers with
  | some p => missedCount p
  | none => 0

/-- Embeds `weeks[weekKey].total` for a given week key. -/
def weekTotal (rs : List PrayerRecord) (k : Nat) : Nat :=
  ((rs.filter (fun r => weekKeyOf r == k)).map slotsObserved).sum

/-- Embeds `weeks[weekKey].completed` for a given week key. -/
def weekCompleted (rs : List PrayerRecord) (k : Nat) : Nat :=
  ((rs.filter (fun r => weekKeyOf r == k)).map slotsCompleted).sum

/-- Embeds `Math.round((completed / total) * 100)` (0 when `total` is 0), as
round-half-up on the exact ratio. -/
def completionRate (completed total : Nat) : Nat :=
  if 0 < total then (200 * completed + total) / (2 * total) else 0

/-- Embeds `groupRecordsByWeek`: completion rates of the weeks with at least 35
observed slots (one entry per distinct week key of the records). -/
def groupRecordsByWeek (records : List PrayerRecord) : List Nat :=
  (((records.map weekKeyOf).dedup).filter (fun k => 35 ≤ weekTotal records k)).map
    (fun k => completionRate (weekCompleted records k) (weekTotal records k))

/-- The predicate deciding whether a distinct week key is counted as a
perfect week: completion rate 100 among the weeks with at least 35 observed
slots. -/
def perfectWeekPred (records : List PrayerRecord) (k : Nat) : Bool :=
  (completionRate (weekCompleted records k) (weekTotal records k) == 100)
    && decide (35 ≤ weekTotal records k)

/-- The perfect-week count as a count over the distinct week keys. -/
def perfectWeeksOf (records : List PrayerRecord) : Nat :=
  ((records.map weekKeyOf).dedup).countP (perfectWeekPred records)

/-! ### `updateUserStatistics`: the recomputed statistics record -/

/-- The statistics fields recomputed on every reconciliation. -/
structure StatsFields where
  totalPrayers : Nat
  onTimePrayers : Nat
  qazaPrayers : Nat
  currentStreak : Nat
  bestStreak : Nat
  perfectWeeks : Nat
deriving DecidableEq, Repr

/-- The pure computation inside `updateUserStatistics` (routes.ts lines 24-97). -/
def computeStats (allRecords : List PrayerRecord) : StatsFields :=
  let sortedRecords := sortDesc allRecords
  let currentStreak := (sortedRecords.foldl streakStep ⟨false, none, 0⟩).currentStreak
  let chronologicalRecords := sortAsc allRecords
  let t := chronologicalRecords.foldl totStep ⟨0, 0, 0, 0, 0⟩
  let perfectWeeks := (groupRecordsByWeek chronologicalRecords).countP (· == 100)
  { totalPrayers := t.totalPrayers
    onTimePrayers := t.onTimePrayers
    qazaPrayers := t.qazaPrayers
    currentStreak := currentStreak
    bestStreak := max t.bestStreak currentStreak
    perfectWeeks := perfectWeeks }

/-! ### Storage (`MemStorage`) and the reconciler-triggering routes -/

/-- The per-user slices of `MemStorage` the routes touch: prayer records
(keyed `userId-date`) and the cached statistics row. -/
structure Store where
  records : String → List PrayerRecord
  stats : String → Option StatsFields

/-- Embeds `MemStorage.updatePrayerRecord`: mutate the record at `(userId, date)` in
place if present, otherwise create it.  Returns the written record and the
updated store. -/
def updatePrayerRecordR (uid : String) (date : Nat) (p : DailyPrayers)
    (st : Store) : PrayerRecord × Store :=
  if (st.records uid).any (fun r => r.date == date) then
    (⟨date, some p⟩,
     { st with records := fun u =>
         if u = uid then
           ((st.records uid).map
             (fun r => if r.date == date then ⟨date, some p⟩ else r))
         else st.records u })
  else
    (⟨date, some p⟩,
     { st with records := fun u =>
         if u = uid then st.records uid ++ [⟨date, some p⟩]
         else st.records u })

/-- Embeds `updateUserStatistics` (routes.ts lines 19-128), successful path: reload
the user's records, recompute, and persist the statistics (update if a row
exists, create otherwise — both persist the same recomputed fields here since
ids and timestamps carry no logic). -/
def updateUserStatistics (uid : String) (st : Store) : Store :=
  let s := computeStats (st.records uid)
  match st.stats uid with
  | some _ =>
    { st with stats := fun u => if u = uid then some s else st.stats u }
  | none =>
    { st with stats := fun u => if u = uid then some s else st.stats u }

/-- Observable storage/reconciler events of a route invocation. -/
inductive TraceEvent where
  | upsert (date : Nat)
  | reconcile
deriving DecidableEq, Repr

/-- Whether an event is a record upsert. -/
def TraceEvent.isUpsert : TraceEvent → Bool
  | .upsert _ => true
  | .reconcile => false

/-- Embeds `MemStorage.batchUpdatePrayerRecords`: the updates are applied
sequentially, one `updatePrayerRecord` per date, in order. -/
def batchUpdatePrayerRecords (uid : String) (updates : List (Nat × DailyPrayers))
    (st : Store) : Store × List TraceEvent :=
  updates.foldl
    (fun acc u => ((updatePrayerRecordR uid u.1 u.2 acc.1).2,
                   acc.2 ++ [TraceEvent.upsert u.1]))
    (st, [])

/-- The `POST /api/prayers/batch` route: one batch write, then a single
`updateUserStatistics` call for the whole batch. -/
def batchRoute (uid : String) (updates : List (Nat × DailyPrayers))
    (st : Store) : Store × List TraceEvent :=
  let r := batchUpdatePrayerRecords uid updates st
  (updateUserStatistics uid r.1, r.2 ++ [TraceEvent.reconcile])

/-! ### Reconciliation failure handling (`try`/`catch` in `updateUserStatistics`) -/

/-- Fault injection for the store calls made inside the reconciliation step. -/
structure Faults where
  getRecordsFails : Bool
  getStatsFails : Bool
  writeStatsFails : Bool
deriving DecidableEq, Repr

/-- The body of `updateUserStatistics` with fallible store calls: reading the
records, reading the statistics row and writing it back may each throw.  The
reads do not mutate, and the single write either completes or throws, so a
thrown body leaves the store as it was. -/
def updateUserStatisticsBody (f : Faults) (uid : String) (st : Store) :
    Except Unit Store :=
  if f.getRecordsFails then .error () else
  let s := computeStats (st.records uid)
  if f.getStatsFails then .error () else
  if f.writeStatsFails then .error () else
  match st.stats uid with
  | some _ =>
    .ok { st with stats := fun u => if u = uid then some s else st.stats u }
  | none =>
    .ok { st with stats := fun u => if u = uid then some s else st.stats u }

/-- Embeds `updateUserStatistics` as called by the routes: the whole body sits in a
`try { ... } catch (error) { console.error(...) }`, so a failure is swallowed. -/
def updateUserStatisticsCaught (f : Faults) (uid : String) (st : Store) : Store :=
  match updateUserStatisticsBody f uid st with
  | .ok st' => st'
  | .error _ => st

/-- The `POST /api/prayers` route, after validation: write the record, then
run the (caught) reconciliation, then respond with the written record. -/
def postPrayersRoute (f : Faults) (uid : String) (date : Nat) (p : DailyPrayers)
    (st : Store) : Except String (PrayerRecord × Store) :=
  let w := updatePrayerRecordR uid date p st
  let st₂ := updateUserStatisticsCaught f uid w.2
  .ok (w.1, st₂)

/-! ### Achievement storage (`MemStorage.createAchievement`) -/

/-- A stored achievement row (title/description kept; metadata carries no
logic for the embedded operations). -/
structure Achievement where
  id : Nat
  userId : String
  type : String
  earnedDate : Nat
  title : String
  description : String
deriving DecidableEq, Repr

/-- The payload of a create-achievement call. -/
structure InsertAchievement where
  userId : Option String
  type : String
  earnedDate : Nat
  title : String
  description : String
deriving DecidableEq, Repr

/-- The achievements `Map` (values in insertion order) plus a fresh-id supply
determinizing `randomUUID`. -/
structure AchStore where
  achs : List Achievement
  nextId : Nat
deriving DecidableEq, Repr

/-- The idempotency-key test: same `userId`, `type` and `earnedDate`. -/
def keyMatch (uid ty : String) (ed : Nat) (a : Achievement) : Bool :=
  a.userId == uid && a.type == ty && a.earnedDate == ed

/-- The new achievement row built from a payload and a fresh id
(`insertAchievement.userId || "demo-user"`). -/
def freshAchievement (st : AchStore) (ins : InsertAchievement) : Achievement :=
  ⟨st.nextId, ins.userId.getD "demo-user", ins.type, ins.earnedDate,
   ins.title, ins.description⟩

/-- Embeds `MemStorage.createAchievement`: return the existing achievement with the
same `(userId, type, earnedDate)` key if present, otherwise insert a new one
with a fresh id. -/
def createAchievement (st : AchStore) (ins : InsertAchievement) :
    Achievement × AchStore :=
  match st.achs.find? (keyMatch (ins.userId.getD "demo-user") ins.type
      ins.earnedDate) with
  | some existing => (existing, st)
  | none =>
    (freshAchievement st ins,
     { achs := st.achs ++ [freshAchievement st ins], nextId := st.nextId + 1 })

/-- How many stored achievements match a given idempotency key. -/
def countKey (st : AchStore) (uid ty : String) (ed : Nat) : Nat :=
  st.achs.countP (keyMatch uid ty ed)

/-- A store holds at most one achievement per idempotency key. -/
def KeyUnique (st : AchStore) : Prop :=
  ∀ uid ty ed, countKey st uid ty ed ≤ 1

/-! ### Milestone achievement rules -/

/-- A rule-produced achievement candidate: its `type` tag and the milestone
value recorded in its metadata (titles/descriptions are constant data). -/
structure AchievementCandidate where
  type : String
  milestone : Nat
deriving DecidableEq, Repr

/-- The milestone list `streakMilestones = [7, 30, 50, 100, 200, 365]`. -/
def streakMilestones : List Nat := [7, 30, 50, 100, 200, 365]

/-- The milestone list `prayerMilestones = [50, 100, 250, 500, 1000, 2500, 5000]`. -/
def prayerMilestones : List Nat := [50, 100, 250, 500, 1000, 2500, 5000]

/-- Embeds `checkStreakAchievements`: push the first milestone with
`currentStreak === milestone`, then `break`. -/
def checkStreakAchievements (currentStreak : Nat) : List AchievementCandidate :=
  match streakMilestones.find? (fun m => currentStreak == m) with
  | some m => [⟨"streak_milestone", m⟩]
  | none => []

/-- Embeds `checkPrayerMilestones`: push the first milestone with
`totalPrayers === milestone`, then `break`. -/
def checkPrayerMilestones (totalPrayers : Nat) : List AchievementCandidate :=
  match prayerMilestones.find? (fun m => totalPrayers == m) with
  | some m => [⟨"prayer_milestone", m⟩]
  | none => []

/-! ### Consecutive single-slot streaks and the early-bird family -/

/-- The client-side per-date record lookup (`apiService.getPrayerRecord`):
dates are day numbers, negative offsets allowed. -/
def ClientRecords : Type := Int → Option DailyPrayers

/-- The loop of `checkConsecutivePrayerCompletion`: starting at offset `i`
from `today`, count consecutive days whose record completes the slot, for at
most `fuel` more iterations (`for (let i = 0; i < targetDays + 10; i++)`). -/
def consecutiveLoop (completedAt : Int → Bool) (today : Int) :
    Nat → Nat → Nat
  | _, 0 => 0
  | i, fuel + 1 =>
    if completedAt (today - i) then
      1 + consecutiveLoop completedAt today (i + 1) fuel
    else 0

/-- Whether the record of a day completes a given slot
(`record && record.prayers && record.prayers[type].completed`). -/
def slotCompletedAt (recs : ClientRecords) (slot : Slot) (d : Int) : Bool :=
  match recs d with
  | some p => (p.get slot).completed
  | none => false

/-- Embeds `checkConsecutivePrayerCompletion(prayerType, targetDays)`: walk back from
today counting consecutive completions, checking `targetDays + 10` days. -/
def checkConsecutivePrayerCompletion (recs : ClientRecords) (today : Int)
    (slot : Slot) (targetDays : Nat) : Nat :=
  consecutiveLoop (slotCompletedAt recs slot) today 0 (targetDays + 10)

/-- The single-slot consecutive-day milestones `[3, 7, 15, 30, 60, 100]`. -/
def consecMilestones : List Nat := [3, 7, 15, 30, 60, 100]

/-- Embeds `checkEarlyBirdAchievements`: for each milestone in ascending order, if
the Fajr consecutive-day count reaches it (`consecutiveDays >= milestone`),
push that milestone and `break`. -/
def checkEarlyBirdAchievements (recs : ClientRecords) (today : Int) :
    List AchievementCandidate :=
  match consecMilestones.find?
      (fun m => m ≤ checkConsecutivePrayerCompletion recs today .fajr m) with
  | some m => [⟨"early_bird", m⟩]
  | none => []

/-- Embeds `checkNightOwlAchievements`: the same rule for Isha. -/
def checkNightOwlAchievements (recs : ClientRecords) (today : Int) :
    List AchievementCandidate :=
  match consecMilestones.find?
      (fun m => m ≤ checkConsecutivePrayerCompletion recs today .isha m) with
  | some m => [⟨"night_owl", m⟩]
  | none => []

/-- Embeds `checkGoldenHourAchievements`: the same rule for Maghrib. -/
def checkGoldenHourAchievements (recs : ClientRecords) (today : Int) :
    List AchievementCandidate :=
  match consecMilestones.find?
      (fun m => m ≤ checkConsecutivePrayerCompletion recs today .maghrib m) with
  | some m => [⟨"golden_hour", m⟩]
  | none => []

/-! ### Period analytics (`getDateRangeForPeriod`, `getPeriodSummary`) -/

/-- The period tag, one of week, month, year. -/
inductive Period where
  | week | month | year
deriving DecidableEq, Repr

/-- Embeds `getDateRangeForPeriod(period).dates` with today `ty-tm-td`: the period's
calendar dates clamped to not extend past today. -/
def datesForPeriod (period : Period) (ty tm td : Nat) : List Nat :=
  let todayDay := dayOfDate ty tm td
  match period with
  | .week =>
    let monday := weekStartDay todayDay
    ((List.range 7).map (fun i => monday + i)).filter (fun d => d ≤ todayDay)
  | .month =>
    let firstDay := dayOfDate ty tm 1
    (List.range (todayDay + 1 - firstDay)).map (fun i => firstDay + i)
  | .year =>
    let firstDay := dayOfDate ty 1 1
    (List.range (todayDay + 1 - firstDay)).map (fun i => firstDay + i)

/-- Accumulator of the `getPeriodSummary` loop. -/
structure SummaryAcc where
  total : Nat
  completed : Nat
  onTime : Nat
deriving DecidableEq, Repr

/-- One date of the `getPeriodSummary` loop: a date with a prayers-bearing
record contributes its per-slot counts; any other date contributes 5 to the
possible total only. -/
def summaryStep (records : List PrayerRecord) (acc : SummaryAcc) (date : Nat) :
    SummaryAcc :=
  match records.find? (fun r => r.date == date) with
  | some r =>
    match r.prayers with
    | some p =>
      { total := acc.total + 5
        completed := acc.completed + completedCount p
        onTime := acc.onTime + onTimeCount p }
    | none => { acc with total := acc.total + 5 }
  | none => { acc with total := acc.total + 5 }

/-- Completed slots a date of a range contributes (0 with no prayers-bearing
record). -/
def dateCompletedIn (records : List PrayerRecord) (d : Nat) : Nat :=
  match records.find? (fun r => r.date == d) with
  | some r => slotsCompleted r
  | none => 0

/-- On-time slots a date of a range contributes. -/
def dateOnTimeIn (records : List PrayerRecord) (d : Nat) : Nat :=
  match records.find? (fun r => r.date == d) with
  | some r => slotsOnTime r
  | none => 0

/-- The summary returned by `getPeriodSummary`. -/
structure PeriodSummary where
  totalPrayers : Nat
  totalPossible : Nat
  successRate : Nat
  qazaPrayers : Nat
  onTimePrayers : Nat
deriving DecidableEq, Repr

/-- The accumulated counts of the `getPeriodSummary` loop over a date range. -/
def periodAcc (dates : List Nat) (records : List PrayerRecord) : SummaryAcc :=
  dates.foldl (summaryStep records) ⟨0, 0, 0⟩

/-- Embeds `getPeriodSummary` over an already-computed date range and record set. -/
def getPeriodSummary (dates : List Nat) (records : List PrayerRecord) :
    PeriodSummary :=
  { totalPrayers := (periodAcc dates records).completed
    totalPossible := (periodAcc dates records).total
    successRate := completionRate (periodAcc dates records).completed
      (periodAcc dates records).total
    qazaPrayers := (periodAcc dates records).total
      - (periodAcc dates records).completed
    onTimePrayers := (periodAcc dates records).onTime }

/-! ### Spec-side comparison definitions

These follow the specification's wording, to be compared with the embedded
code above. -/

/-- Spec wording of the current-streak walk after the first counted day: a day
counts only if it is exactly one calendar day before the previously counted
day and all five slots are completed; the first gap or incomplete day stops
the walk. -/
def specStreakGo (prev : Nat) : List PrayerRecord → Nat
  | [] => 0
  | r :: rest =>
    match r.prayers with
    | some p =>
      if (prev : Int) - (r.date : Int) = 1 ∧ allCompleted p = true then
        1 + specStreakGo r.date rest
      else 0
    | none => 0

/-- Spec wording of the current streak over the descending-sorted records:
walk backward from the most recent record, counting days until the first gap
or incomplete day. -/
def specCurrentStreak : List PrayerRecord → Nat
  | [] => 0
  | r :: rest =>
    match r.prayers with
    | some p =>
      if allCompleted p then 1 + specStreakGo r.date rest else 0
    | none => 0

/-- Spec wording of the perfect-week count: the number of distinct calendar
weeks (Monday week keys) whose records accumulate at least 35 observed slots,
all of them completed. -/
def specPerfectWeeks (rs : List PrayerRecord) : Nat :=
  (((rs.map weekKeyOf).dedup).filter
    (fun k => 35 ≤ weekTotal rs k && weekCompleted rs k == weekTotal rs k)).length

/-! ### Concrete inputs for witnesses and counterexamples -/

/-- A fully completed, fully on-time day. -/
def allDone : DailyPrayers :=
  ⟨⟨true, true⟩, ⟨true, true⟩, ⟨true, true⟩, ⟨true, true⟩, ⟨true, true⟩⟩

/-- A day with only Fajr missing. -/
def fajrMissing : DailyPrayers :=
  ⟨⟨false, false⟩, ⟨true, true⟩, ⟨true, true⟩, ⟨true, true⟩, ⟨true, true⟩⟩

/-- The §8 example history: 2024-01-01..03 all complete, then 2024-01-05 all
complete, with no record for 2024-01-04. -/
def gapExampleRecords : List PrayerRecord :=
  [⟨dayOfDate 2024 1 1, some allDone⟩, ⟨dayOfDate 2024 1 2, some allDone⟩,
   ⟨dayOfDate 2024 1 3, some allDone⟩, ⟨dayOfDate 2024 1 5, some allDone⟩]

/-- Seven all-complete records covering the Monday-Sunday span starting at
Monday `w`. -/
def fullWeekRecords (w : Nat) : List PrayerRecord :=
  (List.range 7).map (fun i => ⟨w + i, some allDone⟩)

/-- An empty storage state. -/
def emptyStore : Store :=
  { records := fun _ => [], stats := fun _ => none }

/-- A two-date batch payload. -/
def demoBatch : List (Nat × DailyPrayers) :=
  [(dayOfDate 2024 1 1, allDone), (dayOfDate 2024 1 2, fajrMissing)]

/-- An empty achievement store. -/
def emptyAchStore : AchStore := { achs := [], nextId := 0 }

/-- A demo create-achievement payload. -/
def demoInsert : InsertAchievement :=
  { userId := some "u1", type := "streak_milestone",
    earnedDate := dayOfDate 2024 1 7, title := "Week Warrior",
    description := "7-day prayer streak achieved!" }

/-- Client-side records with exactly four consecutive fully completed days,
ending at day 3. -/
def fourDayClientRecords : ClientRecords := fun d =>
  if 0 ≤ d ∧ d ≤ 3 then some allDone else none

/-- Client-side records with exactly seven consecutive fully completed days,
ending at day 6. -/
def sevenDayClientRecords : ClientRecords := fun d =>
  if 0 ≤ d ∧ d ≤ 6 then some allDone else none

/-!
## Theorems

Helper lemmas first, then one theorem per claim (with witnesses or
counterexamples where required).
-/

/-- A day's completed and missed slot counts always add up to five. -/
theorem completedCount_add_missedCount (p : DailyPrayers) :
    completedCount p + missedCount p = 5 := by
  rcases p with ⟨⟨c1, o1⟩, ⟨c2, o2⟩, ⟨c3, o3⟩, ⟨c4, o4⟩, ⟨c5, o5⟩⟩
  cases c1 <;> cases c2 <;> cases c3 <;> cases c4 <;> cases c5 <;> rfl

/-- On-time slots are a subset of completed slots. -/
theorem onTimeCount_le_completedCount (p : DailyPrayers) :
    onTimeCount p ≤ completedCount p :=
  List.countP_mono_left (fun x _ hx => by
    cases hc : x.completed
    · rw [hc] at hx; simp at hx
    · rfl)

/-- Completed slots number at most five. -/
theorem completedCount_le_five (p : DailyPrayers) : completedCount p ≤ 5 :=
  List.countP_le_length _

/-- The inequality `currentStreak ≤ bestStreak` holds of every recomputed statistics record,
by the final `bestStreak = Math.max(bestStreak, currentStreak)` step. -/
theorem computeStats_current_le_best (rs : List PrayerRecord) :
    (computeStats rs).currentStreak ≤ (computeStats rs).bestStreak := by
  unfold computeStats
  exact Nat.le_max_right _ _

/-- C1: For every user and every record history (including the empty one),
the statistics persisted by `updateUserStatistics` after a prayer write
satisfy `bestStreak >= currentStreak`. -/
theorem reconcile_persists_bestStreak_ge_currentStreak
    (uid : String) (st : Store) (s : StatsFields)
    (h : (updateUserStatistics uid st).stats uid = some s) :
    s.currentStreak ≤ s.bestStreak := by
  have hs : s = computeStats (st.records uid) := by
    unfold updateUserStatistics at h
    cases hst : st.stats uid <;> simp [hst] at h <;> exact h.symm
  rw [hs]
  exact computeStats_current_le_best _

/-- Witness for C1: reconciling the empty history persists statistics with
`bestStreak >= currentStreak`. -/
theorem reconcile_persists_bestStreak_ge_currentStreak_witness :
    (updateUserStatistics "u1" emptyStore).stats "u1" = some ⟨0, 0, 0, 0, 0, 0⟩ ∧
    (StatsFields.mk 0 0 0 0 0 0).currentStreak ≤
      (StatsFields.mk 0 0 0 0 0 0).bestStreak :=
  ⟨by decide,
   reconcile_persists_bestStreak_ge_currentStreak "u1" emptyStore
     ⟨0, 0, 0, 0, 0, 0⟩ (by decide)⟩

/-- The chronological fold accumulates `totalPrayers` as the sum of the
records' completed-slot counts. -/
theorem foldl_totStep_totalPrayers (rs : List PrayerRecord) :
    ∀ s : TotState, (rs.foldl totStep s).totalPrayers =
      s.totalPrayers + (rs.map slotsCompleted).sum := by
  induction rs with
  | nil => intro s; simp
  | cons r rest ih =>
    intro s
    rw [List.foldl_cons, ih, List.map_cons, List.sum_cons]
    cases hp : r.prayers <;> simp [totStep, hp, slotsCompleted] <;> omega

/-- The chronological fold accumulates `qazaPrayers` as the sum of the
records' missed-slot counts. -/
theorem foldl_totStep_qazaPrayers (rs : List PrayerRecord) :
    ∀ s : TotState, (rs.foldl totStep s).qazaPrayers =
      s.qazaPrayers + (rs.map slotsMissed).sum := by
  induction rs with
  | nil => intro s; simp
  | cons r rest ih =>
    intro s
    rw [List.foldl_cons, ih, List.map_cons, List.sum_cons]
    cases hp : r.prayers <;> simp [totStep, hp, slotsMissed] <;> omega

/-- The chronological fold accumulates `onTimePrayers` as the sum of the
records' on-time-slot counts. -/
theorem foldl_totStep_onTimePrayers (rs : List PrayerRecord) :
    ∀ s : TotState, (rs.foldl totStep s).onTimePrayers =
      s.onTimePrayers + (rs.map slotsOnTime).sum := by
  induction rs with
  | nil => intro s; simp
  | cons r rest ih =>
    intro s
    rw [List.foldl_cons, ih, List.map_cons, List.sum_cons]
    cases hp : r.prayers <;> simp [totStep, hp, slotsOnTime] <;> omega

/-- Per-record completed and missed slots add up to five whenever the prayers
mapping is present. -/
theorem sum_slotsCompleted_add_slotsMissed (rs : List PrayerRecord)
    (h : ∀ r ∈ rs, r.prayers.isSome) :
    (rs.map slotsCompleted).sum + (rs.map slotsMissed).sum = 5 * rs.length := by
  induction rs with
  | nil => simp
  | cons r rest ih =>
    have hr := h r (by simp)
    have hrest : ∀ x ∈ rest, x.prayers.isSome := fun x hx => h x (by simp [hx])
    cases hp : r.prayers with
    | none => rw [hp] at hr; simp at hr
    | some p =>
      have h5 := completedCount_add_missedCount p
      have hih := ih hrest
      simp only [List.map_cons, List.sum_cons, List.length_cons,
        slotsCompleted, slotsMissed, hp]
      omega

/-- C10: For record sets whose records all carry the five named slots, the
recomputed lifetime counters satisfy
`totalPrayers + qazaPrayers = 5 * #records` and
`onTimePrayers <= totalPrayers`; each counter is a sum over the records
alone, so absent days contribute nothing. -/
theorem lifetime_counters_partition (rs : List PrayerRecord)
    (h : ∀ r ∈ rs, r.prayers.isSome) :
    (computeStats rs).totalPrayers + (computeStats rs).qazaPrayers
        = 5 * rs.length ∧
    (computeStats rs).onTimePrayers ≤ (computeStats rs).totalPrayers ∧
    (computeStats rs).totalPrayers = (rs.map slotsCompleted).sum ∧
    (computeStats rs).qazaPrayers = (rs.map slotsMissed).sum ∧
    (computeStats rs).onTimePrayers = (rs.map slotsOnTime).sum := by
  have hperm : sortAsc rs |>.Perm rs := List.perm_insertionSort _ _
  have htot : (computeStats rs).totalPrayers = (rs.map slotsCompleted).sum := by
    have hgoal : ((sortAsc rs).foldl totStep ⟨0, 0, 0, 0, 0⟩).totalPrayers
        = (rs.map slotsCompleted).sum := by
      rw [foldl_totStep_totalPrayers]
      simpa using ((hperm.map slotsCompleted).sum_eq)
    exact hgoal
  have hqaza : (computeStats rs).qazaPrayers = (rs.map slotsMissed).sum := by
    have hgoal : ((sortAsc rs).foldl totStep ⟨0, 0, 0, 0, 0⟩).qazaPrayers
        = (rs.map slotsMissed).sum := by
      rw [foldl_totStep_qazaPrayers]
      simpa using ((hperm.map slotsMissed).sum_eq)
    exact hgoal
  have hon : (computeStats rs).onTimePrayers = (rs.map slotsOnTime).sum := by
    have hgoal : ((sortAsc rs).foldl totStep ⟨0, 0, 0, 0, 0⟩).onTimePrayers
        = (rs.map slotsOnTime).sum := by
      rw [foldl_totStep_onTimePrayers]
      simpa using ((hperm.map slotsOnTime).sum_eq)
    exact hgoal
  refine ⟨?_, ?_, htot, hqaza, hon⟩
  · rw [htot, hqaza]
    exact sum_slotsCompleted_add_slotsMissed rs h
  · rw [htot, hon]
    refine List.sum_le_sum (fun r _ => ?_)
    cases hp : r.prayers with
    | none => simp [slotsOnTime, slotsCompleted, hp]
    | some p => simpa [slotsOnTime, slotsCompleted, hp] using
        onTimeCount_le_completedCount p

/-- Witness for C10 on the four-record example history. -/
theorem lifetime_counters_partition_witness :
    (computeStats gapExampleRecords).totalPrayers
        + (computeStats gapExampleRecords).qazaPrayers
        = 5 * gapExampleRecords.length ∧
    (computeStats gapExampleRecords).onTimePrayers ≤
      (computeStats gapExampleRecords).totalPrayers :=
  ⟨(lifetime_counters_partition gapExampleRecords (by decide)).1,
   (lifetime_counters_partition gapExampleRecords (by decide)).2.1⟩

/-- A milestone rule built on first-equality-match emits a result exactly
when the input equals one of the milestones. -/
theorem find?_beq_isSome_iff_mem (ms : List Nat) (n : Nat) :
    (ms.find? (fun m => n == m)).isSome = true ↔ n ∈ ms := by
  rw [List.find?_isSome]
  constructor
  · rintro ⟨m, hm, hpm⟩
    simp only [beq_iff_eq] at hpm
    rw [hpm]; exact hm
  · intro hn
    exact ⟨n, hn, by simp⟩

/-- C6: A `streak_milestone` achievement is emitted only when `currentStreak`
exactly equals one of {7,30,50,100,200,365}, and a `prayer_milestone` only
when lifetime `totalPrayers` exactly equals one of
{50,100,250,500,1000,2500,5000}; at most one candidate per family per
invocation; `totalPrayers = 100` emits the 100 milestone once and values
101..249 emit nothing for that family. -/
theorem milestone_exact_equality :
    (∀ n, checkStreakAchievements n ≠ [] ↔ n ∈ streakMilestones) ∧
    (∀ n, (checkStreakAchievements n).length ≤ 1) ∧
    (∀ n, checkPrayerMilestones n ≠ [] ↔ n ∈ prayerMilestones) ∧
    (∀ n, (checkPrayerMilestones n).length ≤ 1) ∧
    checkPrayerMilestones 100 = [⟨"prayer_milestone", 100⟩] ∧
    (∀ n, 100 < n → n < 250 → checkPrayerMilestones n = []) := by
  refine ⟨?_, ?_, ?_, ?_, by decide, ?_⟩
  · intro n
    rw [← find?_beq_isSome_iff_mem streakMilestones n]
    unfold checkStreakAchievements
    cases h : streakMilestones.find? (fun m => n == m) <;> simp [h]
  · intro n
    unfold checkStreakAchievements
    cases h : streakMilestones.find? (fun m => n == m) <;> simp [h]
  · intro n
    rw [← find?_beq_isSome_iff_mem prayerMilestones n]
    unfold checkPrayerMilestones
    cases h : prayerMilestones.find? (fun m => n == m) <;> simp [h]
  · intro n
    unfold checkPrayerMilestones
    cases h : prayerMilestones.find? (fun m => n == m) <;> simp [h]
  · intro n h1 h2
    unfold checkPrayerMilestones
    have hnone : prayerMilestones.find? (fun m => n == m) = none := by
      rw [List.find?_eq_none]
      intro m hm
      simp only [prayerMilestones, List.mem_cons, List.mem_singleton,
        List.not_mem_nil, or_false] at hm
      simp only [beq_iff_eq]
      rcases hm with rfl | rfl | rfl | rfl | rfl | rfl | rfl <;> omega
    rw [hnone]

/-- Witness for C6: a streak of 7 emits, 150 total prayers emit nothing. -/
theorem milestone_exact_equality_witness :
    checkPrayerMilestones 150 = [] ∧ checkStreakAchievements 7 ≠ [] :=
  ⟨milestone_exact_equality.2.2.2.2.2 150 (by decide) (by decide),
   (milestone_exact_equality.1 7).mpr (by decide)⟩

/-- The operation `createAchievement` preserves at-most-one-achievement-per-key, so every
store state reachable from the empty store satisfies `KeyUnique`. -/
theorem createAchievement_preserves_keyUnique (st : AchStore)
    (ins : InsertAchievement) (hU : KeyUnique st) :
    KeyUnique (createAchievement st ins).2 := by
  intro uid ty ed
  cases hf : st.achs.find? (keyMatch (ins.userId.getD "demo-user") ins.type
      ins.earnedDate) with
  | some a =>
    simp only [createAchievement, hf]
    exact hU uid ty ed
  | none =>
    simp only [createAchievement, hf, countKey, List.countP_append]
    by_cases hk : keyMatch uid ty ed (freshAchievement st ins) = true
    · have h0 : st.achs.countP (keyMatch uid ty ed) = 0 := by
        rw [List.countP_eq_zero]
        intro a ha hpa
        have hkeys := List.find?_eq_none.mp hf a ha
        apply hkeys
        simp only [keyMatch, freshAchievement, Bool.and_eq_true, beq_iff_eq]
          at hk hpa ⊢
        exact ⟨⟨hpa.1.1.trans hk.1.1.symm, hpa.1.2.trans hk.1.2.symm⟩,
               hpa.2.trans hk.2.symm⟩
      simp [h0, List.countP_cons, hk]
    · have h1 : List.countP (keyMatch uid ty ed) [freshAchievement st ins]
          = 0 := by
        simp [List.countP_cons, hk]
      rw [h1]
      simpa using hU uid ty ed

/-- C3: `createAchievement` is idempotent on the key
`(userId, type, earnedDate)`: for every key-unique store state, calling it
twice with the same payload returns the same achievement record (same id)
both times, leaves the store exactly as after the first call, and the store
then holds exactly one achievement with that key. -/
theorem createAchievement_idempotent (st : AchStore) (ins : InsertAchievement)
    (hU : KeyUnique st) :
    (createAchievement (createAchievement st ins).2 ins).1
        = (createAchievement st ins).1 ∧
    (createAchievement (createAchievement st ins).2 ins).2
        = (createAchievement st ins).2 ∧
    countKey (createAchievement (createAchievement st ins).2 ins).2
        (ins.userId.getD "demo-user") ins.type ins.earnedDate = 1 := by
  cases hf : st.achs.find? (keyMatch (ins.userId.getD "demo-user") ins.type
      ins.earnedDate) with
  | some a =>
    have e1 : createAchievement st ins = (a, st) := by
      simp only [createAchievement, hf]
    have e2 : createAchievement (createAchievement st ins).2 ins = (a, st) := by
      rw [e1]; exact e1
    refine ⟨by rw [e2, e1], by rw [e2, e1], ?_⟩
    rw [e2]
    show countKey st (ins.userId.getD "demo-user") ins.type ins.earnedDate = 1
    have hmem := List.mem_of_find?_eq_some hf
    have hpa := List.find?_some hf
    have hpos : 0 < countKey st (ins.userId.getD "demo-user") ins.type
        ins.earnedDate := by
      rw [countKey, List.countP_pos]
      exact ⟨a, hmem, hpa⟩
    have hle := hU (ins.userId.getD "demo-user") ins.type ins.earnedDate
    omega
  | none =>
    have hnew : keyMatch (ins.userId.getD "demo-user") ins.type ins.earnedDate
        (freshAchievement st ins) = true := by
      simp [keyMatch, freshAchievement]
    have hfind2 : (st.achs ++ [freshAchievement st ins]).find?
        (keyMatch (ins.userId.getD "demo-user") ins.type ins.earnedDate)
        = some (freshAchievement st ins) := by
      rw [List.find?_append, hf]
      simp [List.find?, hnew]
    have e1 : createAchievement st ins = (freshAchievement st ins,
        ⟨st.achs ++ [freshAchievement st ins], st.nextId + 1⟩) := by
      simp only [createAchievement, hf]
    have e2 : createAchievement (createAchievement st ins).2 ins
        = (freshAchievement st ins,
           ⟨st.achs ++ [freshAchievement st ins], st.nextId + 1⟩) := by
      rw [e1]
      show createAchievement
          ⟨st.achs ++ [freshAchievement st ins], st.nextId + 1⟩ ins = _
      simp only [createAchievement, hfind2]
    refine ⟨by rw [e2, e1], by rw [e2, e1], ?_⟩
    rw [e2]
    have h0 : st.achs.countP (keyMatch (ins.userId.getD "demo-user") ins.type
        ins.earnedDate) = 0 := by
      rw [List.countP_eq_zero]
      exact List.find?_eq_none.mp hf
    simp [countKey, List.countP_append, h0, List.countP_cons, hnew]

/-- Witness for C3: double-create on the empty store. -/
theorem createAchievement_idempotent_witness :
    (createAchievement (createAchievement emptyAchStore demoInsert).2
        demoInsert).1 = (createAchievement emptyAchStore demoInsert).1 ∧
    (createAchievement (createAchievement emptyAchStore demoInsert).2
        demoInsert).2 = (createAchievement emptyAchStore demoInsert).2 ∧
    countKey (createAchievement (createAchievement emptyAchStore
        demoInsert).2 demoInsert).2
      (demoInsert.userId.getD "demo-user") demoInsert.type
      demoInsert.earnedDate = 1 :=
  createAchievement_idempotent emptyAchStore demoInsert
    (fun uid ty ed => by simp [countKey, emptyAchStore])

/-- The batch storage call logs exactly one upsert per update, in order. -/
theorem batchUpdate_trace (uid : String) (updates : List (Nat × DailyPrayers)) :
    ∀ (st : Store) (log : List TraceEvent),
      (updates.foldl
        (fun acc u => ((updatePrayerRecordR uid u.1 u.2 acc.1).2,
                       acc.2 ++ [TraceEvent.upsert u.1])) (st, log)).2
        = log ++ updates.map (fun u => TraceEvent.upsert u.1) := by
  induction updates with
  | nil => intro st log; simp
  | cons u rest ih =>
    intro st log
    rw [List.foldl_cons, ih]
    simp

/-- C8 counterexample: a two-date batch performs a single statistics
reconciliation pass for the whole batch, not one pass per date. -/
theorem batch_reconcile_per_date_counterexample :
    (batchRoute "u1" demoBatch emptyStore).2.count TraceEvent.reconcile = 1 ∧
    demoBatch.length = 2 ∧
    ¬((batchRoute "u1" demoBatch emptyStore).2.count TraceEvent.reconcile
        = demoBatch.length) := by
  refine ⟨?_, by decide, ?_⟩
  · have htr : (batchRoute "u1" demoBatch emptyStore).2
        = demoBatch.map (fun u => TraceEvent.upsert u.1)
            ++ [TraceEvent.reconcile] := by
      show (batchUpdatePrayerRecords "u1" demoBatch emptyStore).2
          ++ [TraceEvent.reconcile] = _
      rw [batchUpdatePrayerRecords, batchUpdate_trace]
      simp
    rw [htr]
    decide
  · intro hcontra
    have htr : (batchRoute "u1" demoBatch emptyStore).2
        = demoBatch.map (fun u => TraceEvent.upsert u.1)
            ++ [TraceEvent.reconcile] := by
      show (batchUpdatePrayerRecords "u1" demoBatch emptyStore).2
          ++ [TraceEvent.reconcile] = _
      rw [batchUpdatePrayerRecords, batchUpdate_trace]
      simp
    rw [htr] at hcontra
    revert hcontra
    decide

/-- C8 amended: a batch of n dates (1 <= n <= 7) performs exactly n record
upserts, sequentially in order, followed by exactly one statistics
reconciliation pass for the whole batch. -/
theorem batch_upserts_then_single_reconcile (uid : String)
    (updates : List (Nat × DailyPrayers)) (st : Store)
    (h1 : 1 ≤ updates.length) (h2 : updates.length ≤ 7) :
    (batchRoute uid updates st).2
        = updates.map (fun u => TraceEvent.upsert u.1)
            ++ [TraceEvent.reconcile] ∧
    (batchRoute uid updates st).2.countP TraceEvent.isUpsert
        = updates.length ∧
    (batchRoute uid updates st).2.count TraceEvent.reconcile = 1 := by
  have htrace : (batchRoute uid updates st).2
      = updates.map (fun u => TraceEvent.upsert u.1)
          ++ [TraceEvent.reconcile] := by
    show (batchUpdatePrayerRecords uid updates st).2
        ++ [TraceEvent.reconcile] = _
    rw [batchUpdatePrayerRecords, batchUpdate_trace]
    simp
  refine ⟨htrace, ?_, ?_⟩
  · rw [htrace, List.countP_append, List.countP_map]
    have hup : List.countP (TraceEvent.isUpsert ∘ fun u => TraceEvent.upsert
        u.1) updates = updates.length := by
      rw [List.countP_eq_length]
      intro u _
      rfl
    rw [hup]
    simp [TraceEvent.isUpsert, List.countP_cons]
  · rw [htrace, List.count_append]
    have h0 : (updates.map (fun u => TraceEvent.upsert u.1)).count
        TraceEvent.reconcile = 0 := by
      rw [List.count_eq_zero]
      simp [List.mem_map]
    rw [h0]
    simp

/-- Witness for C8 amended, on the two-date batch against the empty store. -/
theorem batch_upserts_then_single_reconcile_witness :
    (batchRoute "u1" demoBatch emptyStore).2
        = demoBatch.map (fun u => TraceEvent.upsert u.1)
            ++ [TraceEvent.reconcile] ∧
    (batchRoute "u1" demoBatch emptyStore).2.countP TraceEvent.isUpsert
        = demoBatch.length ∧
    (batchRoute "u1" demoBatch emptyStore).2.count TraceEvent.reconcile
        = 1 :=
  batch_upserts_then_single_reconcile "u1" demoBatch emptyStore
    (by decide) (by decide)

/-- The record returned by an upsert is the written record. -/
theorem updatePrayerRecordR_fst (uid : String) (date : Nat) (p : DailyPrayers)
    (st : Store) :
    (updatePrayerRecordR uid date p st).1 = ⟨date, some p⟩ := by
  unfold updatePrayerRecordR
  split <;> rfl

/-- An upsert never touches the cached statistics. -/
theorem updatePrayerRecordR_stats (uid : String) (date : Nat)
    (p : DailyPrayers) (st : Store) :
    (updatePrayerRecordR uid date p st).2.stats = st.stats := by
  unfold updatePrayerRecordR
  split <;> rfl

/-- After an upsert, the written record is among the user's records. -/
theorem updatePrayerRecordR_mem (uid : String) (date : Nat) (p : DailyPrayers)
    (st : Store) :
    (updatePrayerRecordR uid date p st).1
      ∈ (updatePrayerRecordR uid date p st).2.records uid := by
  unfold updatePrayerRecordR
  split
  next h =>
    dsimp only
    rw [if_pos rfl]
    obtain ⟨r₀, hr₀, hd⟩ := List.any_eq_true.mp h
    exact List.mem_map.mpr ⟨r₀, hr₀, by rw [if_pos hd]⟩
  next h =>
    dsimp only
    rw [if_pos rfl]
    exact List.mem_append_right _ (by simp)

/-- The caught reconciliation step never touches the prayer records. -/
theorem caught_records_eq (f : Faults) (uid : String) (st : Store) :
    (updateUserStatisticsCaught f uid st).records = st.records := by
  unfold updateUserStatisticsCaught
  cases hb : updateUserStatisticsBody f uid st with
  | error e => rfl
  | ok s2 =>
    unfold updateUserStatisticsBody at hb
    split at hb
    · exact Except.noConfusion hb
    · split at hb
      · exact Except.noConfusion hb
      · split at hb
        · exact Except.noConfusion hb
        · split at hb <;>
            (injection hb with hb'; rw [← hb'])

/-- Under any injected fault the reconciliation body throws. -/
theorem body_error_of_fault (f : Faults) (uid : String) (st : Store)
    (h : (f.getRecordsFails || f.getStatsFails || f.writeStatsFails) = true) :
    updateUserStatisticsBody f uid st = .error () := by
  rcases f with ⟨a, b, c⟩
  cases a <;> cases b <;> cases c <;>
    simp_all [updateUserStatisticsBody]

/-- C9: any failure during the derived statistics reconciliation is caught
and never fails the prayer write that triggered it: the route still answers
with the successfully written record, which is persisted, and under a fault
the cached statistics are left untouched (possibly stale). -/
theorem reconcile_failure_swallowed (f : Faults) (uid : String) (date : Nat)
    (p : DailyPrayers) (st : Store) :
    (postPrayersRoute f uid date p st).isOk = true ∧
    (∀ r st₂, postPrayersRoute f uid date p st = .ok (r, st₂) →
      r.date = date ∧ r.prayers = some p ∧ r ∈ st₂.records uid ∧
      ((f.getRecordsFails || f.getStatsFails || f.writeStatsFails) = true →
        st₂.stats = st.stats)) := by
  constructor
  · rfl
  · intro r st₂ h
    have hr : r = (updatePrayerRecordR uid date p st).1 ∧
        st₂ = updateUserStatisticsCaught f uid
          (updatePrayerRecordR uid date p st).2 := by
      unfold postPrayersRoute at h
      injection h with h'
      exact ⟨(Prod.mk.injEq _ _ _ _ ▸ h').1.symm,
             (Prod.mk.injEq _ _ _ _ ▸ h').2.symm⟩
    obtain ⟨hr1, hr2⟩ := hr
    subst hr1 hr2
    refine ⟨?_, ?_, ?_, ?_⟩
    · rw [updatePrayerRecordR_fst]
    · rw [updatePrayerRecordR_fst]
    · rw [caught_records_eq]
      exact updatePrayerRecordR_mem uid date p st
    · intro hf
      unfold updateUserStatisticsCaught
      rw [body_error_of_fault _ _ _ hf]
      exact updatePrayerRecordR_stats uid date p st

/-- Witness for C9: with a failing statistics write, the route still answers
with the written record and the statistics stay stale. -/
theorem reconcile_failure_swallowed_witness :
    (postPrayersRoute ⟨false, false, true⟩ "u1" 5 allDone
        emptyStore).isOk = true ∧
    ((⟨5, some allDone⟩ : PrayerRecord).date = 5 ∧
     (⟨5, some allDone⟩ : PrayerRecord).prayers = some allDone ∧
     (⟨5, some allDone⟩ : PrayerRecord) ∈ (updateUserStatisticsCaught
        ⟨false, false, true⟩ "u1"
        (updatePrayerRecordR "u1" 5 allDone emptyStore).2).records "u1" ∧
     (((Faults.mk false false true).getRecordsFails
         || (Faults.mk false false true).getStatsFails
         || (Faults.mk false false true).writeStatsFails) = true →
       (updateUserStatisticsCaught ⟨false, false, true⟩ "u1"
         (updatePrayerRecordR "u1" 5 allDone emptyStore).2).stats
         = emptyStore.stats)) :=
  ⟨(reconcile_failure_swallowed ⟨false, false, true⟩ "u1" 5 allDone
      emptyStore).1,
   (reconcile_failure_swallowed ⟨false, false, true⟩ "u1" 5 allDone
      emptyStore).2 ⟨5, some allDone⟩ _ (by rfl)⟩

/-- The backward walk reaches at least `k` exactly when the `k` most recent
days are all completed (for `k` within the fuel bound). -/
theorem consecutiveLoop_ge_iff (c : Int → Bool) (t : Int) :
    ∀ (k i fuel : Nat), k ≤ fuel →
      (k ≤ consecutiveLoop c t i fuel ↔ ∀ j < k, c (t - (i + j)) = true) := by
  intro k
  induction k with
  | zero => intro i fuel _; simp
  | succ k ih =>
    intro i fuel hk
    obtain ⟨f, rfl⟩ : ∃ f, fuel = f + 1 := ⟨fuel - 1, by omega⟩
    rw [consecutiveLoop]
    cases hc : c (t - i) with
    | false =>
      rw [if_neg (by simp)]
      constructor
      · omega
      · intro h
        have h0 := h 0 (by omega)
        simp only [Nat.cast_zero, add_zero] at h0
        rw [h0] at hc
        exact absurd hc (by simp)
    | true =>
      rw [if_pos rfl]
      have hsucc : k + 1 ≤ 1 + consecutiveLoop c t (i + 1) f
          ↔ k ≤ consecutiveLoop c t (i + 1) f := by omega
      rw [hsucc, ih (i + 1) f (by omega)]
      constructor
      · intro h j hj
        match j with
        | 0 =>
          simp only [Nat.cast_zero, add_zero]
          exact hc
        | j' + 1 =>
          have hstep := h j' (by omega)
          have he : ((i : Int) + (j' + 1 : Nat)) = ((i + 1 : Nat) : Int)
              + (j' : Nat) := by push_cast; ring
          rw [he]
          exact hstep
      · intro h j hj
        have hstep := h (j + 1) (by omega)
        have he : ((i : Int) + (j + 1 : Nat)) = ((i + 1 : Nat) : Int)
            + (j : Nat) := by push_cast; ring
        rw [he] at hstep
        exact hstep

/-- Reaching 3 consecutive completions means the last three days are all
completed, regardless of the requested milestone. -/
theorem checkConsec_ge3_iff (recs : ClientRecords) (today : Int) (slot : Slot)
    (targetDays : Nat) :
    (3 ≤ checkConsecutivePrayerCompletion recs today slot targetDays) ↔
      (slotCompletedAt recs slot today = true ∧
       slotCompletedAt recs slot (today - 1) = true ∧
       slotCompletedAt recs slot (today - 2) = true) := by
  unfold checkConsecutivePrayerCompletion
  rw [consecutiveLoop_ge_iff (slotCompletedAt recs slot) today 3 0
    (targetDays + 10) (by omega)]
  constructor
  · intro h
    refine ⟨?_, ?_, ?_⟩
    · simpa using h 0 (by omega)
    · simpa using h 1 (by omega)
    · simpa using h 2 (by omega)
  · rintro ⟨h0, h1, h2⟩ j hj
    interval_cases j
    · simpa using h0
    · simpa using h1
    · simpa using h2

/-- The ascending `>=`-matched milestone scan of the early-bird family always
resolves to the smallest milestone, 3, whenever the last three days are
completed, and to nothing otherwise. -/
theorem consecFamily_find (recs : ClientRecords) (today : Int) (slot : Slot) :
    consecMilestones.find?
        (fun m => m ≤ checkConsecutivePrayerCompletion recs today slot m) =
      (if slotCompletedAt recs slot today = true ∧
          slotCompletedAt recs slot (today - 1) = true ∧
          slotCompletedAt recs slot (today - 2) = true
       then some 3 else none) := by
  by_cases h : slotCompletedAt recs slot today = true ∧
      slotCompletedAt recs slot (today - 1) = true ∧
      slotCompletedAt recs slot (today - 2) = true
  · rw [if_pos h]
    have h1 : 3 ≤ checkConsecutivePrayerCompletion recs today slot 3 :=
      (checkConsec_ge3_iff recs today slot 3).mpr h
    simp [consecMilestones, List.find?, h1]
  · rw [if_neg h]
    rw [List.find?_eq_none]
    intro m hm
    simp only [decide_eq_true_eq]
    intro hle
    have h3m : 3 ≤ m := by
      simp only [consecMilestones, List.mem_cons, List.mem_singleton,
        List.not_mem_nil, or_false] at hm
      rcases hm with rfl | rfl | rfl | rfl | rfl | rfl <;> omega
    exact h ((checkConsec_ge3_iff recs today slot m).mp (le_trans h3m hle))

/-- C7 counterexample: with a four-day Fajr streak (4 is no milestone) the
code still emits an `early_bird` achievement, and with a seven-day streak it
awards the milestone 3, not the most recently matched threshold 7. -/
theorem earlyBird_exact_equality_counterexample :
    checkEarlyBirdAchievements fourDayClientRecords 3 = [⟨"early_bird", 3⟩] ∧
    checkConsecutivePrayerCompletion fourDayClientRecords 3 Slot.fajr 100
        = 4 ∧
    (4 : Nat) ∉ consecMilestones ∧
    checkEarlyBirdAchievements sevenDayClientRecords 6 = [⟨"early_bird", 3⟩] ∧
    checkConsecutivePrayerCompletion sevenDayClientRecords 6 Slot.fajr 100
        = 7 ∧
    checkEarlyBirdAchievements sevenDayClientRecords 6
        ≠ [⟨"early_bird", 7⟩] := by
  decide

/-- C7 amended: an `early_bird` / `night_owl` / `golden_hour` achievement is
emitted exactly when the corresponding slot (fajr / isha / maghrib) has been
completed on the three most recent days — the scan matches milestones by
`>=` in ascending order and stops at the first match — and the awarded
threshold is then always the smallest, 3; larger thresholds are never
awarded. -/
theorem consecFamily_awards_smallest (recs : ClientRecords) (today : Int) :
    (checkEarlyBirdAchievements recs today =
      if slotCompletedAt recs Slot.fajr today = true ∧
         slotCompletedAt recs Slot.fajr (today - 1) = true ∧
         slotCompletedAt recs Slot.fajr (today - 2) = true
      then [⟨"early_bird", 3⟩] else []) ∧
    (checkNightOwlAchievements recs today =
      if slotCompletedAt recs Slot.isha today = true ∧
         slotCompletedAt recs Slot.isha (today - 1) = true ∧
         slotCompletedAt recs Slot.isha (today - 2) = true
      then [⟨"night_owl", 3⟩] else []) ∧
    (checkGoldenHourAchievements recs today =
      if slotCompletedAt recs Slot.maghrib today = true ∧
         slotCompletedAt recs Slot.maghrib (today - 1) = true ∧
         slotCompletedAt recs Slot.maghrib (today - 2) = true
      then [⟨"golden_hour", 3⟩] else []) := by
  refine ⟨?_, ?_, ?_⟩
  · unfold checkEarlyBirdAchievements
    rw [consecFamily_find recs today Slot.fajr]
    by_cases h : slotCompletedAt recs Slot.fajr today = true ∧
        slotCompletedAt recs Slot.fajr (today - 1) = true ∧
        slotCompletedAt recs Slot.fajr (today - 2) = true
    · simp only [if_pos h]
    · simp only [if_neg h]
  · unfold checkNightOwlAchievements
    rw [consecFamily_find recs today Slot.isha]
    by_cases h : slotCompletedAt recs Slot.isha today = true ∧
        slotCompletedAt recs Slot.isha (today - 1) = true ∧
        slotCompletedAt recs Slot.isha (today - 2) = true
    · simp only [if_pos h]
    · simp only [if_neg h]
  · unfold checkGoldenHourAchievements
    rw [consecFamily_find recs today Slot.maghrib]
    by_cases h : slotCompletedAt recs Slot.maghrib today = true ∧
        slotCompletedAt recs Slot.maghrib (today - 1) = true ∧
        slotCompletedAt recs Slot.maghrib (today - 2) = true
    · simp only [if_pos h]
    · simp only [if_neg h]

/-- A mapped sum with a pointwise bound is bounded by the bound times the
length. -/
theorem sum_map_le_mul {α : Type} (l : List α) (f : α → Nat) (c : Nat)
    (h : ∀ x ∈ l, f x ≤ c) : (l.map f).sum ≤ c * l.length := by
  induction l with
  | nil => simp
  | cons x rest ih =>
    have hx := h x (by simp)
    have hrest := ih (fun y hy => h y (by simp [hy]))
    simp only [List.map_cons, List.sum_cons, List.length_cons]
    calc f x + (rest.map f).sum ≤ c + c * rest.length := by omega
    _ = c * (rest.length + 1) := by ring

/-- The period-summary loop accumulates the per-date contributions. -/
theorem periodAcc_closed_form (records : List PrayerRecord) :
    ∀ (dates : List Nat) (acc : SummaryAcc),
      dates.foldl (summaryStep records) acc =
        ⟨acc.total + 5 * dates.length,
         acc.completed + (dates.map (dateCompletedIn records)).sum,
         acc.onTime + (dates.map (dateOnTimeIn records)).sum⟩ := by
  intro dates
  induction dates with
  | nil => intro acc; simp
  | cons d rest ih =>
    intro acc
    rw [List.foldl_cons, ih]
    simp only [List.map_cons, List.sum_cons, List.length_cons,
      SummaryAcc.mk.injEq]
    cases hfind : records.find? (fun r => r.date == d) with
    | none =>
      simp only [summaryStep, hfind, dateCompletedIn, dateOnTimeIn]
      refine ⟨by omega, by omega, by omega⟩
    | some r =>
      cases hp : r.prayers with
      | none =>
        simp only [summaryStep, hfind, hp, dateCompletedIn, dateOnTimeIn,
          slotsCompleted, slotsOnTime]
        refine ⟨by omega, by omega, by omega⟩
      | some p =>
        simp only [summaryStep, hfind, hp, dateCompletedIn, dateOnTimeIn,
          slotsCompleted, slotsOnTime]
        refine ⟨by omega, by omega, by omega⟩

/-- Per-date completed contributions never exceed five. -/
theorem dateCompletedIn_le_five (records : List PrayerRecord) (d : Nat) :
    dateCompletedIn records d ≤ 5 := by
  unfold dateCompletedIn
  cases hfind : records.find? (fun r => r.date == d) with
  | none => simp
  | some r =>
    cases hp : r.prayers with
    | none => simp [slotsCompleted, hp]
    | some p => simpa [slotsCompleted, hp] using completedCount_le_five p

/-- Per-date on-time contributions never exceed completed contributions. -/
theorem dateOnTimeIn_le_completed (records : List PrayerRecord) (d : Nat) :
    dateOnTimeIn records d ≤ dateCompletedIn records d := by
  unfold dateOnTimeIn dateCompletedIn
  cases hfind : records.find? (fun r => r.date == d) with
  | none => simp
  | some r =>
    cases hp : r.prayers with
    | none => simp [slotsCompleted, slotsOnTime, hp]
    | some p => simpa [slotsCompleted, slotsOnTime, hp] using
        onTimeCount_le_completedCount p

/-- C4 counterexample: a `'year'` request on 2024-03-10 with zero records
covers 70 dates (2024 is a leap year), so `totalPossible` is 350, not the
claimed 345. -/
theorem period_summary_year_2024_counterexample :
    (getPeriodSummary (datesForPeriod Period.year 2024 3 10) []).totalPossible
        = 350 ∧
    (getPeriodSummary (datesForPeriod Period.year 2024 3 10) []).qazaPrayers
        = 350 ∧
    ¬((getPeriodSummary (datesForPeriod Period.year 2024 3 10)
        []).totalPossible = 345) := by
  decide

/-- C4 amended: for every date range and record set, the period summary
returns `totalPossible = #dates * 5`, `totalPrayers` = the completed-slot
count over the range (a date with no record contributing 0 completed and 5 to
`totalPossible`), `qazaPrayers = totalPossible - totalPrayers`,
`onTimePrayers <= totalPrayers <= totalPossible`, and
`successRate = round(100 * totalPrayers / totalPossible)` (0 when
`totalPossible = 0`); the `'year'` request on 2024-03-10 with zero records
yields `totalPossible = 350`, `totalPrayers = 0`, `successRate = 0`,
`qazaPrayers = 350`. -/
theorem period_summary_formulas :
    (∀ (dates : List Nat) (records : List PrayerRecord),
      (getPeriodSummary dates records).totalPossible = 5 * dates.length ∧
      (getPeriodSummary dates records).totalPrayers
          = (dates.map (dateCompletedIn records)).sum ∧
      (getPeriodSummary dates records).onTimePrayers
          = (dates.map (dateOnTimeIn records)).sum ∧
      (getPeriodSummary dates records).qazaPrayers
          = (getPeriodSummary dates records).totalPossible
            - (getPeriodSummary dates records).totalPrayers ∧
      (getPeriodSummary dates records).onTimePrayers
          ≤ (getPeriodSummary dates records).totalPrayers ∧
      (getPeriodSummary dates records).totalPrayers
          ≤ (getPeriodSummary dates records).totalPossible ∧
      (getPeriodSummary dates records).successRate
          = completionRate (getPeriodSummary dates records).totalPrayers
              (getPeriodSummary dates records).totalPossible ∧
      ((getPeriodSummary dates records).totalPossible = 0 →
        (getPeriodSummary dates records).successRate = 0)) ∧
    getPeriodSummary (datesForPeriod Period.year 2024 3 10) []
        = ⟨0, 350, 0, 350, 0⟩ := by
  constructor
  · intro dates records
    have hacc : periodAcc dates records =
        ⟨5 * dates.length,
         (dates.map (dateCompletedIn records)).sum,
         (dates.map (dateOnTimeIn records)).sum⟩ := by
      unfold periodAcc
      rw [periodAcc_closed_form]
      simp
    have htot : (getPeriodSummary dates records).totalPossible
        = 5 * dates.length := by
      show (periodAcc dates records).total = _
      rw [hacc]
    have hcompl : (getPeriodSummary dates records).totalPrayers
        = (dates.map (dateCompletedIn records)).sum := by
      show (periodAcc dates records).completed = _
      rw [hacc]
    have hon : (getPeriodSummary dates records).onTimePrayers
        = (dates.map (dateOnTimeIn records)).sum := by
      show (periodAcc dates records).onTime = _
      rw [hacc]
    have hcle : (getPeriodSummary dates records).totalPrayers
        ≤ (getPeriodSummary dates records).totalPossible := by
      rw [hcompl, htot]
      exact sum_map_le_mul dates _ 5
        (fun d _ => dateCompletedIn_le_five records d)
    refine ⟨htot, hcompl, hon, rfl, ?_, hcle, rfl, ?_⟩
    · rw [hcompl, hon]
      exact List.sum_le_sum (fun d _ => dateOnTimeIn_le_completed records d)
    · intro h0
      show completionRate (periodAcc dates records).completed
          (periodAcc dates records).total = 0
      have : (periodAcc dates records).total = 0 := h0
      rw [this]
      simp [completionRate]
  · decide

/-- Witness for C4 amended: a `'week'` range with one record, and the
zero-range success-rate case. -/
theorem period_summary_formulas_witness :
    (getPeriodSummary (datesForPeriod Period.week 2024 1 3)
        [⟨dayOfDate 2024 1 1, some allDone⟩]).totalPossible
      = 5 * (datesForPeriod Period.week 2024 1 3).length ∧
    (getPeriodSummary ([] : List Nat) ([] : List PrayerRecord)).successRate
      = 0 :=
  ⟨(period_summary_formulas.1 (datesForPeriod Period.week 2024 1 3)
      [⟨dayOfDate 2024 1 1, some allDone⟩]).1,
   (period_summary_formulas.1 [] []).2.2.2.2.2.2.2 (by decide)⟩

/-- Once the streak-broken flag is set, the walk counts nothing further. -/
theorem foldl_streakStep_broken (l : List PrayerRecord) :
    ∀ s : StreakState, s.streakBroken = true →
      (l.foldl streakStep s).currentStreak = s.currentStreak := by
  induction l with
  | nil => intro s _; rfl
  | cons r rest ih =>
    intro s hs
    rw [List.foldl_cons]
    have hstep : (streakStep s r).streakBroken = true ∧
        (streakStep s r).currentStreak = s.currentStreak := by
      unfold streakStep
      cases hp : r.prayers with
      | none => exact ⟨hs, rfl⟩
      | some p =>
        have hbg : streakBrokenAfterGap s r = true := by
          simp [streakBrokenAfterGap, hs]
        simp only [hbg, Bool.not_true, Bool.false_and, if_false]
        cases allCompleted p <;> simp
    rw [ih _ hstep.1, hstep.2]

/-- The loop over records strictly below a counted day `prev` computes the
spec's contiguous walk. -/
theorem foldl_streakStep_go (l : List PrayerRecord) :
    ∀ (prev n : Nat),
      l.Pairwise (fun a b => b.date < a.date) →
      (∀ r ∈ l, r.prayers.isSome) →
      (∀ r ∈ l, r.date < prev) →
      (l.foldl streakStep ⟨false, some prev, n⟩).currentStreak
        = n + specStreakGo prev l := by
  induction l with
  | nil => intro prev n _ _ _; simp [specStreakGo]
  | cons r rest ih =>
    intro prev n hpw hsome hlt
    obtain ⟨p, hp⟩ : ∃ p, r.prayers = some p :=
      Option.isSome_iff_exists.mp (hsome r (by simp))
    have hpw' := List.pairwise_cons.mp hpw
    have hrlt : r.date < prev := hlt r (by simp)
    rw [List.foldl_cons]
    by_cases hgap : (1 : Int) < (prev : Int) - (r.date : Int)
    · have hbg : streakBrokenAfterGap ⟨false, some prev, n⟩ r = true := by
        simp [streakBrokenAfterGap, hgap]
      have hstep : (streakStep ⟨false, some prev, n⟩ r).streakBroken = true ∧
          (streakStep ⟨false, some prev, n⟩ r).currentStreak = n := by
        unfold streakStep
        simp only [hp, hbg, Bool.not_true, Bool.false_and, if_false]
        cases allCompleted p <;> simp
      rw [foldl_streakStep_broken rest _ hstep.1, hstep.2]
      have hspec : specStreakGo prev (r :: rest) = 0 := by
        unfold specStreakGo
        simp only [hp]
        rw [if_neg]
        rintro ⟨h1, _⟩
        omega
      rw [hspec]
      omega
    · have hone : (prev : Int) - (r.date : Int) = 1 := by omega
      have hbg : streakBrokenAfterGap ⟨false, some prev, n⟩ r = false := by
        simp [streakBrokenAfterGap, hgap]
      cases hall : allCompleted p with
      | true =>
        have hstep : streakStep ⟨false, some prev, n⟩ r
            = ⟨false, some r.date, n + 1⟩ := by
          unfold streakStep
          simp only [hp, hbg, hall, Bool.not_false, Bool.and_self, if_true]
        rw [hstep, ih r.date (n + 1) hpw'.2
          (fun x hx => hsome x (by simp [hx])) hpw'.1]
        have hspec : specStreakGo prev (r :: rest)
            = 1 + specStreakGo r.date rest := by
          rw [specStreakGo]
          simp only [hp]
          rw [if_pos ⟨hone, hall⟩]
        rw [hspec]
        omega
      | false =>
        have hstep : streakStep ⟨false, some prev, n⟩ r
            = ⟨true, some prev, n⟩ := by
          unfold streakStep
          simp [hp, hbg, hall]
        rw [hstep, foldl_streakStep_broken rest _ rfl]
        have hspec : specStreakGo prev (r :: rest) = 0 := by
          unfold specStreakGo
          simp only [hp]
          rw [if_neg]
          rintro ⟨_, h2⟩
          rw [hall] at h2
          exact Bool.noConfusion h2
        rw [hspec]
        simp

/-- The current-streak loop over a strictly descending record list equals the
spec's walk: count from the most recent record while each day is fully
completed and exactly one calendar day before the previously counted day. -/
theorem foldl_streakStep_eq_spec (l : List PrayerRecord)
    (hpw : l.Pairwise (fun a b => b.date < a.date))
    (hsome : ∀ r ∈ l, r.prayers.isSome) :
    (l.foldl streakStep ⟨false, none, 0⟩).currentStreak
      = specCurrentStreak l := by
  cases l with
  | nil => rfl
  | cons r rest =>
    obtain ⟨p, hp⟩ : ∃ p, r.prayers = some p :=
      Option.isSome_iff_exists.mp (hsome r (by simp))
    have hpw' := List.pairwise_cons.mp hpw
    rw [List.foldl_cons]
    have hbg : streakBrokenAfterGap ⟨false, none, 0⟩ r = false := by
      simp [streakBrokenAfterGap]
    cases hall : allCompleted p with
    | true =>
      have hstep : streakStep ⟨false, none, 0⟩ r = ⟨false, some r.date, 1⟩ := by
        unfold streakStep
        simp only [hp, hbg, hall, Bool.not_false, Bool.and_self, if_true]
      rw [hstep, foldl_streakStep_go rest r.date 1 hpw'.2
        (fun x hx => hsome x (by simp [hx])) hpw'.1]
      unfold specCurrentStreak
      simp [hp, hall]
    | false =>
      have hstep : streakStep ⟨false, none, 0⟩ r = ⟨true, none, 0⟩ := by
        unfold streakStep
        simp [hp, hbg, hall]
      rw [hstep, foldl_streakStep_broken rest _ rfl]
      unfold specCurrentStreak
      simp [hp, hall]

/-- C2: the current-streak computation sorts the records descending by date
and walks backward from the most recent record; a day is counted only if all
five slots are completed and it is exactly one calendar day before the
previously counted day, and the first gap or incomplete day stops the walk.
On the example history 2024-01-01..03 all-complete plus 2024-01-05 (nothing
for 01-04) the computed streak is 1. -/
theorem currentStreak_sorts_and_walks (rs : List PrayerRecord)
    (hnd : (rs.map PrayerRecord.date).Nodup)
    (hsome : ∀ r ∈ rs, r.prayers.isSome) :
    (computeStats rs).currentStreak = specCurrentStreak (sortDesc rs) ∧
    (computeStats gapExampleRecords).currentStreak = 1 := by
  constructor
  · have hperm : (sortDesc rs).Perm rs := List.perm_insertionSort _ _
    have hsorted : (sortDesc rs).Pairwise dateDesc :=
      List.sorted_insertionSort dateDesc rs
    have hnd' : ((sortDesc rs).map PrayerRecord.date).Nodup :=
      ((hperm.map PrayerRecord.date).nodup_iff).mpr hnd
    have hne : (sortDesc rs).Pairwise
        (fun a b => a.date ≠ b.date) := List.pairwise_map.mp hnd'
    have hstrict : (sortDesc rs).Pairwise (fun a b => b.date < a.date) :=
      (hsorted.and hne).imp
        (fun h => Nat.lt_of_le_of_ne h.1 (fun e => h.2 e.symm))
    have hsome' : ∀ r ∈ sortDesc rs, r.prayers.isSome :=
      fun r hr => hsome r (hperm.subset hr)
    have hgoal : ((sortDesc rs).foldl streakStep
        ⟨false, none, 0⟩).currentStreak = specCurrentStreak (sortDesc rs) :=
      foldl_streakStep_eq_spec (sortDesc rs) hstrict hsome'
    exact hgoal
  · decide

/-- Witness for C2 on the example history. -/
theorem currentStreak_sorts_and_walks_witness :
    (computeStats gapExampleRecords).currentStreak
        = specCurrentStreak (sortDesc gapExampleRecords) ∧
    (computeStats gapExampleRecords).currentStreak = 1 :=
  ⟨(currentStreak_sorts_and_walks gapExampleRecords (by decide)
      (by decide)).1,
   (currentStreak_sorts_and_walks gapExampleRecords (by decide)
      (by decide)).2⟩

/-- Counting over deduplicated keys is a filtered-Finset cardinality. -/
theorem countP_dedup_eq_card (L : List Nat) (p : Nat → Bool) :
    L.dedup.countP p = (L.toFinset.filter (fun a => p a = true)).card := by
  have h1 : L.toFinset = L.dedup.toFinset := by
    ext a
    simp [List.mem_toFinset, List.mem_dedup]
  rw [List.countP_eq_length_filter, h1, ← List.toFinset_filter,
    List.toFinset_card_of_nodup (L.nodup_dedup.filter p)]

/-- The pipeline `groupRecordsByWeek` followed by the 100%-filter counts exactly the
distinct week keys satisfying the perfect-week predicate. -/
theorem perfectWeeks_eq_countP (L : List PrayerRecord) :
    (groupRecordsByWeek L).countP (· == 100) = perfectWeeksOf L := by
  unfold groupRecordsByWeek perfectWeeksOf perfectWeekPred
  rw [List.countP_map, List.countP_filter]
  rfl

/-- The aggregate `weekTotal` only depends on the records up to permutation. -/
theorem weekTotal_perm {L L' : List PrayerRecord} (h : L.Perm L') (k : Nat) :
    weekTotal L k = weekTotal L' k :=
  ((h.filter (fun r => weekKeyOf r == k)).map slotsObserved).sum_eq

/-- The aggregate `weekCompleted` only depends on the records up to permutation. -/
theorem weekCompleted_perm {L L' : List PrayerRecord} (h : L.Perm L')
    (k : Nat) : weekCompleted L k = weekCompleted L' k :=
  ((h.filter (fun r => weekKeyOf r == k)).map slotsCompleted).sum_eq

/-- The perfect-week count only depends on the records up to permutation. -/
theorem perfectWeeksOf_perm {L L' : List PrayerRecord} (h : L.Perm L') :
    perfectWeeksOf L = perfectWeeksOf L' := by
  unfold perfectWeeksOf
  have hpred : ∀ k, perfectWeekPred L k = perfectWeekPred L' k := by
    intro k
    unfold perfectWeekPred
    rw [weekTotal_perm h, weekCompleted_perm h]
  calc ((L.map weekKeyOf).dedup).countP (perfectWeekPred L)
      = ((L.map weekKeyOf).dedup).countP (perfectWeekPred L') :=
        List.countP_congr (fun k _ => by rw [hpred k])
    _ = ((L'.map weekKeyOf).dedup).countP (perfectWeekPred L') :=
        ((h.map weekKeyOf).dedup).countP_eq _

/-- A week never counts more completed than observed slots. -/
theorem weekCompleted_le_weekTotal (L : List PrayerRecord) (k : Nat) :
    weekCompleted L k ≤ weekTotal L k := by
  unfold weekCompleted weekTotal
  refine List.sum_le_sum (fun r _ => ?_)
  cases hp : r.prayers with
  | none => simp [slotsCompleted, slotsObserved, hp]
  | some p => simpa [slotsCompleted, slotsObserved, hp] using
      completedCount_le_five p

/-- The Monday on/before a day is at most the day and at most six days
before it. -/
theorem weekStartDay_le (d : Nat) :
    weekStartDay d ≤ d ∧ d ≤ weekStartDay d + 6 := by
  unfold weekStartDay jsDayOfWeek
  split <;> omega

/-- With pairwise-distinct record dates, a week observes at most
7 × 5 = 35 slots. -/
theorem weekTotal_le_35 (L : List PrayerRecord) (k : Nat)
    (hnd : (L.map PrayerRecord.date).Nodup) : weekTotal L k ≤ 35 := by
  have hsub : ((L.filter (fun r => weekKeyOf r == k)).map
      PrayerRecord.date).Sublist (L.map PrayerRecord.date) :=
    (List.filter_sublist L).map _
  have hndF : ((L.filter (fun r => weekKeyOf r == k)).map
      PrayerRecord.date).Nodup := List.Nodup.sublist hsub hnd
  have hmem : ∀ d ∈ (L.filter (fun r => weekKeyOf r == k)).map
      PrayerRecord.date, d ∈ Finset.Icc k (k + 6) := by
    intro d hd
    obtain ⟨r, hrF, rfl⟩ := List.mem_map.mp hd
    have hkey : weekKeyOf r == k := (List.mem_filter.mp hrF).2
    have hkey' : weekStartDay r.date = k := by
      simpa [weekKeyOf] using hkey
    have hb := weekStartDay_le r.date
    rw [Finset.mem_Icc]
    omega
  have hlen : (L.filter (fun r => weekKeyOf r == k)).length ≤ 7 := by
    have hss : ((L.filter (fun r => weekKeyOf r == k)).map
        PrayerRecord.date).toFinset ⊆ Finset.Icc k (k + 6) :=
      fun d hd => hmem d (List.mem_toFinset.mp hd)
    have hcard := Finset.card_le_card hss
    rw [List.toFinset_card_of_nodup hndF, Nat.card_Icc,
      List.length_map] at hcard
    omega
  have hsum := sum_map_le_mul (L.filter (fun r => weekKeyOf r == k))
    slotsObserved 5 (fun r _ => by
      cases hp : r.prayers <;> simp [slotsObserved, hp])
  unfold weekTotal
  omega

/-- With pairwise-distinct record dates, a week key counts as perfect exactly
when it observes at least 35 slots and all of them are completed. -/
theorem perfectWeekPred_iff (L : List PrayerRecord) (k : Nat)
    (hnd : (L.map PrayerRecord.date).Nodup) :
    (perfectWeekPred L k = true ↔
      35 ≤ weekTotal L k ∧ weekCompleted L k = weekTotal L k) := by
  have hle := weekCompleted_le_weekTotal L k
  have h35 := weekTotal_le_35 L k hnd
  unfold perfectWeekPred completionRate
  simp only [Bool.and_eq_true, beq_iff_eq, decide_eq_true_eq]
  by_cases h35le : 35 ≤ weekTotal L k
  · have ht : weekTotal L k = 35 := by omega
    rw [ht] at hle ⊢
    rw [if_pos (by omega)]
    constructor
    · rintro ⟨h1, _⟩
      exact ⟨by omega, by omega⟩
    · rintro ⟨_, h2⟩
      rw [h2]
      exact ⟨by decide, by decide⟩
  · constructor
    · rintro ⟨_, h2⟩
      exact absurd h2 h35le
    · rintro ⟨h1, _⟩
      exact absurd h1 h35le

/-- The Monday week key of each day of a Monday-started week is that Monday. -/
theorem weekStartDay_add (w i : Nat) (hw : w % 7 = 2) (hi : i < 7) :
    weekStartDay (w + i) = w := by
  unfold weekStartDay jsDayOfWeek
  split <;> omega

/-- The seven records of a full week all carry the Monday week key. -/
theorem fullWeek_keys (w : Nat) (hw : w % 7 = 2) :
    (fullWeekRecords w).map weekKeyOf = List.replicate 7 w := by
  unfold fullWeekRecords
  rw [List.map_map]
  rw [show List.range 7 = [0, 1, 2, 3, 4, 5, 6] from rfl]
  simp only [List.map_cons, List.map_nil, Function.comp, weekKeyOf]
  rw [weekStartDay_add w 0 hw (by omega), weekStartDay_add w 1 hw (by omega),
    weekStartDay_add w 2 hw (by omega), weekStartDay_add w 3 hw (by omega),
    weekStartDay_add w 4 hw (by omega), weekStartDay_add w 5 hw (by omega),
    weekStartDay_add w 6 hw (by omega)]
  rfl

/-- A replicated key deduplicates to the single key. -/
theorem toFinset_replicate_seven (w : Nat) :
    (List.replicate 7 w).toFinset = {w} := by
  have hgen : ∀ n : Nat, (List.replicate (n + 1) w).toFinset = {w} := by
    intro n
    induction n with
    | zero => simp
    | succ m ih =>
      rw [List.replicate_succ, List.toFinset_cons, ih]
      simp
  exact hgen 6

/-- The appended full week observes exactly 35 slots, all completed, under
its Monday key. -/
theorem fullWeek_totals (rs : List PrayerRecord) (w : Nat) (hw : w % 7 = 2)
    (hdisj : ∀ r ∈ rs, weekKeyOf r ≠ w) :
    weekTotal (rs ++ fullWeekRecords w) w = 35 ∧
    weekCompleted (rs ++ fullWeekRecords w) w = 35 := by
  have h1 : rs.filter (fun r => weekKeyOf r == w) = [] :=
    List.filter_eq_nil.mpr (fun r hr => by simp [hdisj r hr])
  have h2 : (fullWeekRecords w).filter (fun r => weekKeyOf r == w)
      = fullWeekRecords w := by
    refine List.filter_eq_self.mpr (fun r hr => ?_)
    obtain ⟨i, hi, rfl⟩ := List.mem_map.mp hr
    have hi7 : i < 7 := List.mem_range.mp hi
    simp [weekKeyOf, weekStartDay_add w i hw hi7]
  constructor
  · unfold weekTotal
    rw [List.filter_append, h1, h2]
    rfl
  · unfold weekCompleted
    rw [List.filter_append, h1, h2]
    rfl

/-- Weeks other than the appended Monday are untouched by the full week. -/
theorem fullWeek_totals_ne (rs : List PrayerRecord) (w k : Nat)
    (hw : w % 7 = 2) (hk : k ≠ w) :
    weekTotal (rs ++ fullWeekRecords w) k = weekTotal rs k ∧
    weekCompleted (rs ++ fullWeekRecords w) k = weekCompleted rs k := by
  have h2 : (fullWeekRecords w).filter (fun r => weekKeyOf r == k) = [] := by
    refine List.filter_eq_nil.mpr (fun r hr => ?_)
    obtain ⟨i, hi, rfl⟩ := List.mem_map.mp hr
    have hi7 : i < 7 := List.mem_range.mp hi
    simp [weekKeyOf, weekStartDay_add w i hw hi7]
    exact fun e => hk e.symm
  constructor
  · unfold weekTotal
    rw [List.filter_append, h2, List.append_nil]
  · unfold weekCompleted
    rw [List.filter_append, h2, List.append_nil]

/-- Appending a fresh all-complete Monday-Sunday week adds exactly one
perfect week. -/
theorem perfectWeeksOf_append_fullWeek (rs : List PrayerRecord) (w : Nat)
    (hw : w % 7 = 2) (hdisj : ∀ r ∈ rs, weekKeyOf r ≠ w) :
    perfectWeeksOf (rs ++ fullWeekRecords w) = perfectWeeksOf rs + 1 := by
  unfold perfectWeeksOf
  rw [countP_dedup_eq_card, countP_dedup_eq_card]
  have hkeys : ((rs ++ fullWeekRecords w).map weekKeyOf)
      = rs.map weekKeyOf ++ List.replicate 7 w := by
    rw [List.map_append, fullWeek_keys w hw]
  rw [hkeys, List.toFinset_append, toFinset_replicate_seven,
    Finset.filter_union, Finset.filter_singleton]
  have hPw : perfectWeekPred (rs ++ fullWeekRecords w) w = true := by
    obtain ⟨ht, hc⟩ := fullWeek_totals rs w hw hdisj
    unfold perfectWeekPred completionRate
    rw [ht, hc]
    decide
  rw [if_pos hPw]
  have hcongr : (rs.map weekKeyOf).toFinset.filter
      (fun a => perfectWeekPred (rs ++ fullWeekRecords w) a = true)
      = (rs.map weekKeyOf).toFinset.filter
        (fun a => perfectWeekPred rs a = true) := by
    refine Finset.filter_congr (fun k hk => ?_)
    obtain ⟨r, hr, rfl⟩ := List.mem_map.mp (List.mem_toFinset.mp hk)
    obtain ⟨ht, hc⟩ := fullWeek_totals_ne rs w (weekKeyOf r) hw (hdisj r hr)
    unfold perfectWeekPred
    rw [ht, hc]
  rw [hcongr]
  have hw_not : w ∉ (rs.map weekKeyOf).toFinset.filter
      (fun a => perfectWeekPred rs a = true) := by
    intro hmem
    have hin := (Finset.mem_filter.mp hmem).1
    obtain ⟨r, hr, he⟩ := List.mem_map.mp (List.mem_toFinset.mp hin)
    exact hdisj r hr he
  rw [Finset.card_union_of_disjoint
    (Finset.disjoint_singleton_right.mpr hw_not), Finset.card_singleton]

/-- C5: `perfectWeeks` counts exactly the calendar weeks (Monday week keys)
whose records observe at least 35 slots with every observed slot completed —
under-observed weeks are excluded entirely rather than counted as imperfect —
and recording all seven days of a fresh Monday-Sunday span with all 35 slots
completed increases `perfectWeeks` by exactly 1. -/
theorem perfectWeeks_characterization :
    (∀ rs : List PrayerRecord, (rs.map PrayerRecord.date).Nodup →
      (computeStats rs).perfectWeeks = specPerfectWeeks rs) ∧
    (∀ (rs : List PrayerRecord) (w : Nat), w % 7 = 2 →
      (∀ r ∈ rs, weekKeyOf r ≠ w) →
      (computeStats (rs ++ fullWeekRecords w)).perfectWeeks
        = (computeStats rs).perfectWeeks + 1) := by
  have hbridge : ∀ L : List PrayerRecord,
      (computeStats L).perfectWeeks = perfectWeeksOf (sortAsc L) := by
    intro L
    show (groupRecordsByWeek (sortAsc L)).countP (· == 100) = _
    exact perfectWeeks_eq_countP _
  constructor
  · intro rs hnd
    rw [hbridge, perfectWeeksOf_perm
      (show (sortAsc rs).Perm rs from List.perm_insertionSort _ _)]
    unfold perfectWeeksOf specPerfectWeeks
    rw [← List.countP_eq_length_filter]
    refine List.countP_congr (fun k _ => ?_)
    rw [perfectWeekPred_iff rs k hnd]
    simp [Bool.and_eq_true, decide_eq_true_eq, beq_iff_eq]
  · intro rs w hw hdisj
    rw [hbridge, hbridge,
      perfectWeeksOf_perm (show (sortAsc (rs ++ fullWeekRecords w)).Perm
        (rs ++ fullWeekRecords w) from List.perm_insertionSort _ _),
      perfectWeeksOf_perm
        (show (sortAsc rs).Perm rs from List.perm_insertionSort _ _)]
    exact perfectWeeksOf_append_fullWeek rs w hw hdisj

/-- Witness for C5: the example history, and a fresh all-complete week
starting Monday 2024-01-01 on the empty history. -/
theorem perfectWeeks_characterization_witness :
    (computeStats gapExampleRecords).perfectWeeks
        = specPerfectWeeks gapExampleRecords ∧
    (computeStats ([] ++ fullWeekRecords (dayOfDate 2024 1 1))).perfectWeeks
        = (computeStats []).perfectWeeks + 1 :=
  ⟨perfectWeeks_characterization.1 gapExampleRecords (by decide),
   perfectWeeks_characterization.2 [] (dayOfDate 2024 1 1) (by decide)
     (by decide)⟩

end Namaz
